import Mathlib

/-!
Shallow embedding of the backtesting engine of the stock-strategy repository.

The simulation loop, trade recording and statistics aggregation are translated
from `src/backtester.py` (`run_backtest`): dates are modelled as integers
counting days (so a calendar-day difference of pandas timestamps becomes
integer subtraction), prices and signal values as rationals, and the
string-keyed exit-policy dispatch as a `String` field compared against the two
literals the source uses.  The `position` column consumed by the loop is not
produced anywhere under `src/` (the signal generator only emits the `Signal`
trend state), so its producer is modelled from the spec where a claim needs it.
-/

namespace StockStrategy

/-- One row of the signal-annotated series handed to `run_backtest`:
its date index (days), closing price, and the `position` crossover column. -/
structure Row where
  date : ℤ
  close : ℚ
  position : ℚ
  deriving DecidableEq, Repr

/-- The `"Exit Type"` strings recorded by `run_backtest`. -/
inductive ExitType where
  | takeProfit
  | stopLoss
  | timeout
  | reverseCrossover
  | endOfBacktest
  deriving DecidableEq, Repr

/-- One entry of the `trades` list built by `run_backtest`.  `pnlPct` is the
`"P&L %"` field exactly as stored at the point in the code being modelled:
the raw fraction `(exit - entry)/entry` inside the loop, and that value
multiplied by 100 in the returned results table. -/
structure Trade where
  entryDate : ℤ
  entryPrice : ℚ
  exitDate : ℤ
  exitPrice : ℚ
  pnlPct : ℚ
  exitType : ExitType
  deriving DecidableEq, Repr

/-- The four configuration arguments of `run_backtest` after the dataframe. -/
structure Config where
  exitStrategy : String
  takeProfit : ℚ
  stopLoss : ℚ
  tradeTimeoutDays : ℤ
  deriving DecidableEq, Repr

/-- The mutable loop state of `run_backtest`: `trades`, `in_position`,
`entry_price`, `entry_date` (the source initialises `entry_price = 0` and
`entry_date = None`; both are only read while `in_position`). -/
structure SimState where
  trades : List Trade
  inPosition : Bool
  entryPrice : ℚ
  entryDate : ℤ
  deriving DecidableEq, Repr

/-- Loop state before the first row. -/
def initState : SimState := ⟨[], false, 0, 0⟩

/-- The common exit bookkeeping of every exit branch of the source: append a
trade priced at the current row's close with `pnl_pct = (exit - entry)/entry`
and clear `in_position`. -/
def mkTrade (s : SimState) (row : Row) (ty : ExitType) : Trade :=
  { entryDate := s.entryDate
    entryPrice := s.entryPrice
    exitDate := row.date
    exitPrice := row.close
    pnlPct := (row.close - s.entryPrice) / s.entryPrice
    exitType := ty }

/-- Append the trade and clear `in_position`. -/
def closeTrade (s : SimState) (row : Row) (ty : ExitType) : SimState :=
  { s with trades := s.trades ++ [mkTrade s row ty], inPosition := false }

/-- The exit-condition block of the loop body (`backtester.py` lines 26-103):
run only while `in_position`; under `"Take Profit / Stop Loss"` an
`if/elif` chain checks take-profit, stop-loss, timeout, then reverse
crossover; under `"Reverse Crossover"` only the bearish crossover is
checked; any other policy string checks nothing. -/
def stepExit (cfg : Config) (s : SimState) (row : Row) : SimState :=
  if s.inPosition then
    if cfg.exitStrategy = "Take Profit / Stop Loss" then
      if row.close ≥ s.entryPrice * (1 + cfg.takeProfit) then
        closeTrade s row .takeProfit
      else if row.close ≤ s.entryPrice * (1 - cfg.stopLoss) then
        closeTrade s row .stopLoss
      else if row.date - s.entryDate ≥ cfg.tradeTimeoutDays then
        closeTrade s row .timeout
      else if row.position = -1 then
        closeTrade s row .reverseCrossover
      else s
    else if cfg.exitStrategy = "Reverse Crossover" then
      if row.position = -1 then closeTrade s row .reverseCrossover else s
    else s
  else s

/-- The entry-condition block of the loop body (lines 105-111): if not in a
position and `row['position'] == 1.0`, enter at the row's close. -/
def stepEntry (s : SimState) (row : Row) : SimState :=
  if s.inPosition then s
  else if row.position = 1 then
    { s with inPosition := true, entryPrice := row.close, entryDate := row.date }
  else s

/-- One iteration of the loop: exit conditions first, then entry conditions. -/
def stepRow (cfg : Config) (s : SimState) (row : Row) : SimState :=
  stepEntry (stepExit cfg s row) row

/-- The whole `for index, row in signals_df.iterrows()` loop. -/
def runLoop (cfg : Config) (rows : List Row) : SimState :=
  rows.foldl (stepRow cfg) initState

/-- End-of-backtest handling (lines 113-124): if still in a position, close it
at the last row's close with exit type `"End of Backtest"`. -/
def forceClose (rows : List Row) (s : SimState) : List Trade :=
  if s.inPosition then
    match rows.getLast? with
    | some last => (closeTrade s last .endOfBacktest).trades
    | none => s.trades
  else s.trades

/-- The complete trade list produced by the simulation part of `run_backtest`,
with `pnlPct` still the raw fraction as appended inside the loop. -/
def finalTrades (cfg : Config) (rows : List Row) : List Trade :=
  forceClose rows (runLoop cfg rows)

/-- `trades_df['P&L %'] = trades_df['P&L %'] * 100` applied to one trade. -/
def pctTrade (t : Trade) : Trade := { t with pnlPct := t.pnlPct * 100 }

/-- Pandas `Series.cumprod` with accumulator. -/
def cumprodAux (acc : ℚ) : List ℚ → List ℚ
  | [] => []
  | x :: xs => (acc * x) :: cumprodAux (acc * x) xs

/-- Pandas `Series.cumprod`. -/
def cumprod (xs : List ℚ) : List ℚ := cumprodAux 1 xs

/-- Pandas `Series.cummax` with accumulator. -/
def cummaxAux (acc : ℚ) : List ℚ → List ℚ
  | [] => []
  | x :: xs => max acc x :: cummaxAux (max acc x) xs

/-- Pandas `Series.cummax`. -/
def cummax : List ℚ → List ℚ
  | [] => []
  | x :: xs => x :: cummaxAux x xs

/-- Pandas `Series.min` on the (always nonempty here) drawdown column. -/
def listMin : List ℚ → ℚ
  | [] => 0
  | x :: xs => xs.foldl min x

/-- The dictionary returned by `run_backtest`. -/
structure BacktestResult where
  trades : List Trade
  total_return : ℚ
  max_drawdown : ℚ
  win_rate : ℚ
  total_trades : ℕ
  deriving DecidableEq, Repr

/-- `run_backtest` (`src/backtester.py`): simulation loop, forced closure, then
metric aggregation.  With no trades it returns all-zero statistics; otherwise
`P&L %` is scaled by 100, win rate is the share of trades with positive P&L,
total return compounds the per-trade return factors, and max drawdown is the
minimum of `(cumulative - running peak)/running peak` times 100. -/
def run_backtest (cfg : Config) (rows : List Row) : BacktestResult :=
  let raw := finalTrades cfg rows
  if raw = [] then ⟨[], 0, 0, 0, 0⟩
  else
    let trades := raw.map pctTrade
    let totalTrades := trades.length
    let winners := trades.filter (fun t => 0 < t.pnlPct)
    let winRate := if 0 < totalTrades then ((winners.length : ℚ) / (totalTrades : ℚ)) * 100 else 0
    let factors := trades.map (fun t => t.pnlPct / 100 + 1)
    let totalReturn := (factors.prod - 1) * 100
    let cum := cumprod factors
    let peak := cummax cum
    let drawdown := List.zipWith (fun c p => (c - p) / p) cum peak
    ⟨trades, totalReturn, listMin drawdown * 100, winRate, totalTrades⟩

/-- Modelled from the spec: the producer of the `position` column is absent
from `src/` (`generate_signals` emits only the `Signal` trend state, 1 for
bullish, -1 for bearish, 0 otherwise).  Per the spec the crossing indicator is
set on a row exactly when the trend state differs from the immediately
preceding row's in the corresponding direction; the accumulator is the
previous row's trend state. -/
def positionColAux (prev : ℚ) : List ℚ → List ℚ
  | [] => []
  | x :: xs =>
    (if x = 1 ∧ prev ≠ 1 then (1 : ℚ)
     else if x = -1 ∧ prev ≠ -1 then -1
     else 0) :: positionColAux x xs

/-- Modelled from the spec: the `position` column derived from the `Signal`
trend-state column; the first row has no prior state, so its crossing value
is 0 by construction. -/
def positionCol : List ℚ → List ℚ
  | [] => []
  | x :: xs => 0 :: positionColAux x xs

/-- Rounding a rational to two decimal places, used to state what the spec
requires of recorded percentages. -/
def round2 (x : ℚ) : ℚ := ((round (x * 100) : ℤ) : ℚ) / 100

/-- Chronological soundness of the loop state relative to the last processed
date `d`: recorded trades are non-overlapping and closed by `d`, and an open
position was entered no later than `d` and after every recorded exit. -/
def Inv (s : SimState) (d : ℤ) : Prop :=
  List.Chain' (fun a b => a.exitDate ≤ b.entryDate) s.trades ∧
  (∀ t ∈ s.trades, t.entryDate ≤ t.exitDate ∧ t.exitDate ≤ d) ∧
  (s.inPosition = true → s.entryDate ≤ d ∧ ∀ t ∈ s.trades, t.exitDate ≤ s.entryDate)

/-! ### Basic shape lemmas about the loop body -/

theorem closeTrade_trades (s : SimState) (row : Row) (ty : ExitType) :
    (closeTrade s row ty).trades = s.trades ++ [mkTrade s row ty] := rfl

theorem closeTrade_inPosition (s : SimState) (row : Row) (ty : ExitType) :
    (closeTrade s row ty).inPosition = false := rfl

theorem stepExit_shape (cfg : Config) (s : SimState) (row : Row) :
    stepExit cfg s row = s ∨
      (s.inPosition = true ∧ ∃ ty, stepExit cfg s row = closeTrade s row ty) := by
  unfold stepExit
  split_ifs <;>
    first
      | exact Or.inl rfl
      | exact Or.inr ⟨by assumption, _, rfl⟩

theorem stepEntry_trades (s : SimState) (row : Row) :
    (stepEntry s row).trades = s.trades := by
  unfold stepEntry
  split_ifs <;> rfl

theorem stepEntry_shape (s : SimState) (row : Row) :
    stepEntry s row = s ∨
      (s.inPosition = false ∧ row.position = 1 ∧
        stepEntry s row =
          { s with
            inPosition := true
            entryPrice := row.close
            entryDate := row.date }) := by
  unfold stepEntry
  split_ifs with h1 h2
  · exact Or.inl rfl
  · exact Or.inr ⟨by simpa using h1, h2, rfl⟩
  · exact Or.inl rfl

theorem stepRow_trades (cfg : Config) (s : SimState) (row : Row) :
    (stepRow cfg s row).trades = (stepExit cfg s row).trades := by
  unfold stepRow
  rw [stepEntry_trades]

theorem stepExit_unknown (cfg : Config) (s : SimState) (row : Row)
    (h1 : cfg.exitStrategy ≠ "Take Profit / Stop Loss")
    (h2 : cfg.exitStrategy ≠ "Reverse Crossover") :
    stepExit cfg s row = s := by
  unfold stepExit
  by_cases hb : s.inPosition = true
  · rw [if_pos hb, if_neg h1, if_neg h2]
  · rw [if_neg hb]

theorem stepRow_flat_no_signal (cfg : Config) {s : SimState} {row : Row}
    (hb : s.inPosition = false) (hp : row.position ≠ 1) :
    stepRow cfg s row = s := by
  have h1 : stepExit cfg s row = s := by
    unfold stepExit
    rw [if_neg (by simp [hb])]
  unfold stepRow stepEntry
  rw [h1, if_neg (by simp [hb]), if_neg hp]

theorem run_backtest_trades (cfg : Config) (rows : List Row) :
    (run_backtest cfg rows).trades = (finalTrades cfg rows).map pctTrade := by
  simp only [run_backtest]
  by_cases h : finalTrades cfg rows = []
  · rw [if_pos h, h]
    rfl
  · rw [if_neg h]

theorem forceClose_mem {rows : List Row} {s : SimState} {t : Trade}
    (ht : t ∈ forceClose rows s) :
    t ∈ s.trades ∨ ∃ last, rows.getLast? = some last ∧ t = mkTrade s last .endOfBacktest := by
  unfold forceClose at ht
  by_cases hb : s.inPosition = true
  · rw [if_pos hb] at ht
    rcases hgl : rows.getLast? with _ | last
    · rw [hgl] at ht
      exact Or.inl ht
    · rw [hgl] at ht
      have ht2 : t ∈ s.trades ++ [mkTrade s last .endOfBacktest] := ht
      rcases List.mem_append.1 ht2 with h | h
      · exact Or.inl h
      · exact Or.inr ⟨last, rfl, List.mem_singleton.1 h⟩
  · rw [if_neg hb] at ht
    exact Or.inl ht

/-! ### Claim C9 -/

/-- Claim C9: under the `"Reverse Crossover"` exit policy, the take-profit,
stop-loss and timeout parameters never influence the output of
`run_backtest`: two runs on the same row series with different values of
those parameters return identical trades and statistics. -/
theorem reverse_crossover_noninterference (tp sl tp2 sl2 : ℚ) (td td2 : ℤ)
    (rows : List Row) :
    run_backtest ⟨"Reverse Crossover", tp, sl, td⟩ rows =
      run_backtest ⟨"Reverse Crossover", tp2, sl2, td2⟩ rows := by
  have hc1 : (⟨"Reverse Crossover", tp, sl, td⟩ : Config).exitStrategy =
      "Reverse Crossover" := rfl
  have hc2 : (⟨"Reverse Crossover", tp2, sl2, td2⟩ : Config).exitStrategy =
      "Reverse Crossover" := rfl
  have hexit : ∀ (s : SimState) (row : Row),
      stepExit ⟨"Reverse Crossover", tp, sl, td⟩ s row =
        stepExit ⟨"Reverse Crossover", tp2, sl2, td2⟩ s row := by
    intro s row
    unfold stepExit
    by_cases hb : s.inPosition = true
    · rw [if_pos hb, if_pos hb]
      simp only [hc1, hc2]
      simp
    · rw [if_neg hb, if_neg hb]
  have hstep : stepRow ⟨"Reverse Crossover", tp, sl, td⟩ =
      stepRow ⟨"Reverse Crossover", tp2, sl2, td2⟩ := by
    funext s row
    unfold stepRow
    rw [hexit]
  have hloop : runLoop ⟨"Reverse Crossover", tp, sl, td⟩ rows =
      runLoop ⟨"Reverse Crossover", tp2, sl2, td2⟩ rows := by
    unfold runLoop
    rw [hstep]
  unfold run_backtest finalTrades
  rw [hloop]

/-! ### Claim C7 -/

/-- Claim C7: for an empty series, and more generally for any series with no
bullish entry signal, `run_backtest` returns an empty trade list with total
return 0, win rate 0, max drawdown 0 and trade count 0 (and, being a total
function of its arguments, raises nothing). -/
theorem no_signal_zero_result (cfg : Config) (rows : List Row)
    (h : ∀ r ∈ rows, r.position ≠ 1) :
    run_backtest cfg rows = ⟨[], 0, 0, 0, 0⟩ := by
  have hloop : ∀ l : List Row, (∀ r ∈ l, r.position ≠ 1) →
      l.foldl (stepRow cfg) initState = initState := by
    intro l
    induction l with
    | nil => intro _; rfl
    | cons r rs ih =>
      intro hl
      rw [List.foldl_cons,
        stepRow_flat_no_signal cfg rfl (hl r (List.mem_cons_self r rs))]
      exact ih fun x hx => hl x (List.mem_cons_of_mem r hx)
  have hft : finalTrades cfg rows = [] := by
    unfold finalTrades runLoop
    rw [hloop rows h]
    rfl
  unfold run_backtest
  rw [hft]
  rfl

/-- Witness for C7 at a one-row series carrying no entry signal. -/
theorem no_signal_zero_result_witness :
    run_backtest ⟨"Take Profit / Stop Loss", 1/10, 1/20, 60⟩ [⟨0, 5, 0⟩] =
      ⟨[], 0, 0, 0, 0⟩ :=
  no_signal_zero_result _ _ (by decide)

/-! ### Evaluation helpers for concrete runs -/

theorem string_rc_ne_tpsl :
    (("Reverse Crossover" : String) = "Take Profit / Stop Loss") = False := by simp

theorem string_rc_eq_rc :
    (("Reverse Crossover" : String) = "Reverse Crossover") = True := by simp

theorem string_tpsl_eq_tpsl :
    (("Take Profit / Stop Loss" : String) = "Take Profit / Stop Loss") = True := by simp

theorem string_trailing_ne_tpsl :
    (("Trailing" : String) = "Take Profit / Stop Loss") = False := by simp

theorem string_trailing_ne_rc :
    (("Trailing" : String) = "Reverse Crossover") = False := by simp

theorem trade_cons_ne_nil (t : Trade) (l : List Trade) : ((t :: l) = []) = False := by
  simp

theorem foldl_min_le (l : List ℚ) : ∀ a : ℚ, l.foldl min a ≤ a := by
  induction l with
  | nil =>
    intro a
    simp
  | cons x xs ih =>
    intro a
    exact le_trans (ih (min a x)) (min_le_left a x)

/-! ### Claim C4 -/

/-- Counterexample for claim C4: `run_backtest` with the policy string
`"Trailing"` (a policy kind whose required parameter the engine does not even
accept) does not fail with a configuration error: it processes every row,
silently evaluates no exit condition, and returns a normal result whose only
trade is the end-of-data forced closure. -/
theorem no_config_validation_example :
    run_backtest ⟨"Trailing", 1/10, 1/20, 60⟩ [⟨0, 100, 1⟩, ⟨1, 90, -1⟩] =
      ⟨[⟨0, 100, 1, 90, -10, .endOfBacktest⟩], -10, 0, 0, 1⟩ := by
  norm_num [run_backtest, finalTrades, runLoop, stepRow, stepExit, stepEntry,
    closeTrade, mkTrade, initState, forceClose, cumprod, cumprodAux, cummax,
    cummaxAux, listMin, pctTrade, List.filter, string_trailing_ne_tpsl,
    string_trailing_ne_rc, trade_cons_ne_nil]

/-- Claim C4 (amended): `run_backtest` performs no configuration validation;
any exit-strategy string other than the two recognised literals is accepted
without error, no exit condition is ever evaluated, and every recorded trade
is the end-of-data forced closure. -/
theorem unknown_strategy_holds_to_end (cfg : Config) (rows : List Row)
    (h1 : cfg.exitStrategy ≠ "Take Profit / Stop Loss")
    (h2 : cfg.exitStrategy ≠ "Reverse Crossover") :
    ∀ t ∈ (run_backtest cfg rows).trades, t.exitType = .endOfBacktest := by
  have hloop : ∀ (l : List Row) (s : SimState),
      (l.foldl (stepRow cfg) s).trades = s.trades := by
    intro l
    induction l with
    | nil => intro _; rfl
    | cons r rs ih =>
      intro s
      rw [List.foldl_cons, ih, stepRow_trades, stepExit_unknown cfg s r h1 h2]
  intro t ht
  rw [run_backtest_trades] at ht
  obtain ⟨t0, ht0, hpct⟩ := List.mem_map.1 ht
  rcases forceClose_mem ht0 with hmem | ⟨last, _, hmk⟩
  · rw [show (runLoop cfg rows).trades = [] from hloop rows initState] at hmem
    cases hmem
  · rw [← hpct, hmk]
    rfl

/-- Witness for the amended C4 at a concrete unknown-policy run. -/
theorem unknown_strategy_holds_to_end_witness :
    Trade.exitType ⟨0, 100, 1, 90, -10, .endOfBacktest⟩ = .endOfBacktest :=
  unknown_strategy_holds_to_end ⟨"Trailing", 1/10, 1/20, 60⟩
    [⟨0, 100, 1⟩, ⟨1, 90, -1⟩] (by decide) (by decide) _
    (by norm_num [run_backtest, finalTrades, runLoop, stepRow, stepExit, stepEntry,
      closeTrade, mkTrade, initState, forceClose, cumprod, cumprodAux, cummax,
      cummaxAux, listMin, pctTrade, List.filter, string_trailing_ne_tpsl,
      string_trailing_ne_rc, trade_cons_ne_nil])

/-! ### Claim C5 -/

/-- Counterexample for claim C5: after a trade entered at close 3 and exited
at close 4, the loop records the raw fraction 1/3 in the trade list, the
returned results table holds 100/3 (multiplied by 100 only at aggregation),
and 100/3 is not a value rounded to 2 decimal places. -/
theorem pnl_percent_unrounded_example :
    (run_backtest ⟨"Reverse Crossover", 1/10, 1/20, 60⟩
        [⟨0, 3, 1⟩, ⟨1, 4, -1⟩]).trades.map Trade.pnlPct = [100/3] ∧
    (finalTrades ⟨"Reverse Crossover", 1/10, 1/20, 60⟩
        [⟨0, 3, 1⟩, ⟨1, 4, -1⟩]).map Trade.pnlPct = [1/3] ∧
    round2 (100/3 : ℚ) ≠ (100/3 : ℚ) := by
  refine ⟨?_, ?_, ?_⟩
  · norm_num [run_backtest, finalTrades, runLoop, stepRow, stepExit, stepEntry,
      closeTrade, mkTrade, initState, forceClose, cumprod, cumprodAux, cummax,
      cummaxAux, listMin, pctTrade, List.filter, string_rc_ne_tpsl,
      string_rc_eq_rc, trade_cons_ne_nil]
  · norm_num [finalTrades, runLoop, stepRow, stepExit, stepEntry,
      closeTrade, mkTrade, initState, forceClose, string_rc_ne_tpsl,
      string_rc_eq_rc]
  · norm_num [round2, round_eq]

/-- Claim C5 (amended): the `pnlPercent` of a recorded trade is stored as the
raw fraction `(exitPrice - entryPrice)/entryPrice` at the point of recording,
and is converted to an already-multiplied-by-100 value at the point of
aggregation, with no rounding anywhere. -/
theorem pnl_recorded_raw_scaled_at_aggregation (cfg : Config) (rows : List Row) :
    (run_backtest cfg rows).trades = (finalTrades cfg rows).map pctTrade ∧
    ∀ t ∈ finalTrades cfg rows,
      t.pnlPct = (t.exitPrice - t.entryPrice) / t.entryPrice := by
  refine ⟨run_backtest_trades cfg rows, ?_⟩
  have hloop : ∀ (l : List Row) (s : SimState),
      (∀ t ∈ s.trades, t.pnlPct = (t.exitPrice - t.entryPrice) / t.entryPrice) →
      ∀ t ∈ (l.foldl (stepRow cfg) s).trades,
        t.pnlPct = (t.exitPrice - t.entryPrice) / t.entryPrice := by
    intro l
    induction l with
    | nil => intro s hs; exact hs
    | cons r rs ih =>
      intro s hs
      rw [List.foldl_cons]
      refine ih _ ?_
      intro t ht
      rw [stepRow_trades] at ht
      rcases stepExit_shape cfg s r with he | ⟨_, ty, he⟩
      · rw [he] at ht
        exact hs t ht
      · rw [he, closeTrade_trades] at ht
        rcases List.mem_append.1 ht with hmem | hmem
        · exact hs t hmem
        · rw [List.mem_singleton.1 hmem]
          rfl
  intro t ht
  rcases forceClose_mem ht with hmem | ⟨last, _, hmk⟩
  · exact hloop rows initState (by intro t h; cases h) t hmem
  · rw [hmk]
    rfl

/-- Witness for the amended C5 on a concrete run with one recorded trade. -/
theorem pnl_recorded_raw_scaled_at_aggregation_witness :
    (run_backtest ⟨"Reverse Crossover", 1/10, 1/20, 60⟩
        [⟨0, 3, 1⟩, ⟨1, 4, -1⟩]).trades =
      (finalTrades ⟨"Reverse Crossover", 1/10, 1/20, 60⟩
        [⟨0, 3, 1⟩, ⟨1, 4, -1⟩]).map pctTrade ∧
    Trade.pnlPct ⟨0, 3, 1, 4, 1/3, .reverseCrossover⟩ =
      (Trade.exitPrice ⟨0, 3, 1, 4, 1/3, .reverseCrossover⟩ -
        Trade.entryPrice ⟨0, 3, 1, 4, 1/3, .reverseCrossover⟩) /
        Trade.entryPrice ⟨0, 3, 1, 4, 1/3, .reverseCrossover⟩ :=
  ⟨(pnl_recorded_raw_scaled_at_aggregation _ _).1,
    (pnl_recorded_raw_scaled_at_aggregation
        ⟨"Reverse Crossover", 1/10, 1/20, 60⟩ [⟨0, 3, 1⟩, ⟨1, 4, -1⟩]).2
      ⟨0, 3, 1, 4, 1/3, .reverseCrossover⟩
      (by norm_num [finalTrades, runLoop, stepRow, stepExit, stepEntry,
        closeTrade, mkTrade, initState, forceClose, string_rc_ne_tpsl,
        string_rc_eq_rc])⟩

/-! ### Claim C1 -/

/-- Counterexample for claim C1: a winning trade followed by a losing trade
yields `max_drawdown = -50`, a strictly negative value — the statistic is the
(signed, non-positive) minimum of the drawdown curve times 100, not a positive
percentage. -/
theorem max_drawdown_negative_example :
    (run_backtest ⟨"Reverse Crossover", 1/10, 1/20, 60⟩
        [⟨0, 100, 1⟩, ⟨1, 110, -1⟩, ⟨2, 100, 1⟩, ⟨3, 50, -1⟩]).max_drawdown = -50 ∧
    ¬ (0 : ℚ) ≤ (run_backtest ⟨"Reverse Crossover", 1/10, 1/20, 60⟩
        [⟨0, 100, 1⟩, ⟨1, 110, -1⟩, ⟨2, 100, 1⟩, ⟨3, 50, -1⟩]).max_drawdown := by
  have h : (run_backtest ⟨"Reverse Crossover", 1/10, 1/20, 60⟩
      [⟨0, 100, 1⟩, ⟨1, 110, -1⟩, ⟨2, 100, 1⟩, ⟨3, 50, -1⟩]).max_drawdown = -50 := by
    norm_num [run_backtest, finalTrades, runLoop, stepRow, stepExit, stepEntry,
      closeTrade, mkTrade, initState, forceClose, cumprod, cumprodAux, cummax,
      cummaxAux, listMin, pctTrade, List.filter, string_rc_ne_tpsl,
      string_rc_eq_rc, trade_cons_ne_nil]
  rw [h]
  norm_num

/-- Claim C1 (amended): for positively priced series the max-drawdown
statistic of `run_backtest` is non-positive — it reports the peak-to-trough
decline of the compounded cumulative-return curve as a negative (or zero)
percentage, the signed minimum of the drawdown series times 100 — and with
zero trades it equals 0. -/
theorem max_drawdown_nonpositive (cfg : Config) (rows : List Row)
    (_hpos : ∀ r ∈ rows, 0 < r.close) :
    (run_backtest cfg rows).max_drawdown ≤ 0 ∧
    ((run_backtest cfg rows).total_trades = 0 →
      (run_backtest cfg rows).max_drawdown = 0) := by
  simp only [run_backtest]
  by_cases h : finalTrades cfg rows = []
  · rw [if_pos h]
    exact ⟨le_refl 0, fun _ => rfl⟩
  · rw [if_neg h]
    obtain ⟨t0, ts, hraw⟩ := List.exists_cons_of_ne_nil h
    rw [hraw]
    have key : ∀ (x : ℚ) (l : List ℚ),
        listMin (List.zipWith (fun c p => (c - p) / p) (cumprod (x :: l))
          (cummax (cumprod (x :: l)))) * 100 ≤ 0 := by
      intro x l
      simp only [cumprod, cumprodAux, cummax, List.zipWith_cons_cons, listMin]
      rw [sub_self, zero_div]
      have hm := foldl_min_le (List.zipWith (fun c p => (c - p) / p)
        (cumprodAux (1 * x) l) (cummaxAux (1 * x) (cumprodAux (1 * x) l))) 0
      linarith
    constructor
    · simp only [List.map_cons]
      exact key _ _
    · intro habs
      simp at habs

/-- Witness for the amended C1 at a concrete two-trade run with positive
closes. -/
theorem max_drawdown_nonpositive_witness :
    (run_backtest ⟨"Reverse Crossover", 1/10, 1/20, 60⟩
        [⟨0, 100, 1⟩, ⟨1, 110, -1⟩, ⟨2, 100, 1⟩, ⟨3, 50, -1⟩]).max_drawdown ≤ 0 ∧
    ((run_backtest ⟨"Reverse Crossover", 1/10, 1/20, 60⟩
        [⟨0, 100, 1⟩, ⟨1, 110, -1⟩, ⟨2, 100, 1⟩, ⟨3, 50, -1⟩]).total_trades = 0 →
      (run_backtest ⟨"Reverse Crossover", 1/10, 1/20, 60⟩
        [⟨0, 100, 1⟩, ⟨1, 110, -1⟩, ⟨2, 100, 1⟩, ⟨3, 50, -1⟩]).max_drawdown = 0) :=
  max_drawdown_nonpositive _ _ (by decide)

/-! ### Claim C3 -/

/-- Claim C3: while a position is held under the `"Take Profit / Stop Loss"`
policy, the exit conditions are evaluated in the fixed precedence take-profit,
stop-loss, timeout, reverse-crossover, acting on the first satisfied; every
exit is priced at the same row's closing price and dated the same row; the
timeout condition fires exactly when the day difference between the row's
date and the entry date reaches the timeout parameter. -/
theorem tpsl_exit_precedence (cfg : Config) (s : SimState) (row : Row)
    (hb : s.inPosition = true)
    (hstrat : cfg.exitStrategy = "Take Profit / Stop Loss") :
    (s.entryPrice * (1 + cfg.takeProfit) ≤ row.close →
      stepExit cfg s row = closeTrade s row .takeProfit) ∧
    (row.close < s.entryPrice * (1 + cfg.takeProfit) →
      row.close ≤ s.entryPrice * (1 - cfg.stopLoss) →
      stepExit cfg s row = closeTrade s row .stopLoss) ∧
    (row.close < s.entryPrice * (1 + cfg.takeProfit) →
      s.entryPrice * (1 - cfg.stopLoss) < row.close →
      cfg.tradeTimeoutDays ≤ row.date - s.entryDate →
      stepExit cfg s row = closeTrade s row .timeout) ∧
    (row.close < s.entryPrice * (1 + cfg.takeProfit) →
      s.entryPrice * (1 - cfg.stopLoss) < row.close →
      row.date - s.entryDate < cfg.tradeTimeoutDays →
      row.position = -1 →
      stepExit cfg s row = closeTrade s row .reverseCrossover) ∧
    (row.close < s.entryPrice * (1 + cfg.takeProfit) →
      s.entryPrice * (1 - cfg.stopLoss) < row.close →
      row.date - s.entryDate < cfg.tradeTimeoutDays →
      row.position ≠ -1 →
      stepExit cfg s row = s) ∧
    (∀ ty, (closeTrade s row ty).trades = s.trades ++ [mkTrade s row ty] ∧
      (mkTrade s row ty).exitPrice = row.close ∧
      (mkTrade s row ty).exitDate = row.date ∧
      (mkTrade s row ty).entryDate = s.entryDate ∧
      (mkTrade s row ty).exitType = ty) := by
  unfold stepExit
  rw [if_pos hb, if_pos hstrat]
  refine ⟨?_, ?_, ?_, ?_, ?_, ?_⟩
  · intro h1
    rw [if_pos h1]
  · intro h1 h2
    rw [if_neg (not_le.2 h1), if_pos h2]
  · intro h1 h2 h3
    rw [if_neg (not_le.2 h1), if_neg (not_le.2 h2), if_pos h3]
  · intro h1 h2 h3 h4
    rw [if_neg (not_le.2 h1), if_neg (not_le.2 h2), if_neg (not_le.2 h3), if_pos h4]
  · intro h1 h2 h3 h4
    rw [if_neg (not_le.2 h1), if_neg (not_le.2 h2), if_neg (not_le.2 h3), if_neg h4]
  · intro ty
    exact ⟨rfl, rfl, rfl, rfl, rfl⟩

/-- Witness for C3: a held position whose close reaches the take-profit
price exits as take-profit at that row's close. -/
theorem tpsl_exit_precedence_witness :
    stepExit ⟨"Take Profit / Stop Loss", 1/10, 1/20, 30⟩ ⟨[], true, 100, 0⟩
        ⟨5, 111, 0⟩ =
      closeTrade ⟨[], true, 100, 0⟩ ⟨5, 111, 0⟩ .takeProfit :=
  (tpsl_exit_precedence ⟨"Take Profit / Stop Loss", 1/10, 1/20, 30⟩
      ⟨[], true, 100, 0⟩ ⟨5, 111, 0⟩ rfl rfl).1
    (show (100 : ℚ) * (1 + 1/10) ≤ 111 by norm_num)

/-! ### Claim C2 -/

theorem positionColAux_getD_one :
    ∀ (sigs : List ℚ) (prev : ℚ) (i : ℕ),
      (positionColAux prev sigs).getD i 0 = 1 →
      sigs.getD i 0 = 1 ∧ (i = 0 → prev ≠ 1) ∧
        ∀ j, i = j + 1 → sigs.getD j 0 ≠ 1 := by
  intro sigs
  induction sigs with
  | nil =>
    intro prev i h
    simp [positionColAux] at h
  | cons x xs ih =>
    intro prev i h
    cases i with
    | zero =>
      simp only [positionColAux, List.getD_cons_zero] at h
      by_cases h1 : x = 1 ∧ prev ≠ 1
      · exact ⟨by simpa [List.getD_cons_zero] using h1.1,
          fun _ => h1.2, fun j hj => absurd hj (by omega)⟩
      · rw [if_neg h1] at h
        by_cases h2 : x = -1 ∧ prev ≠ -1
        · rw [if_pos h2] at h
          norm_num at h
        · rw [if_neg h2] at h
          norm_num at h
    | succ k =>
      simp only [positionColAux, List.getD_cons_succ] at h
      obtain ⟨ha, hprev, hrest⟩ := ih x k h
      refine ⟨by simpa [List.getD_cons_succ] using ha,
        fun h0 => absurd h0 (by omega), ?_⟩
      intro j hj
      have hjk : j = k := by omega
      subst hjk
      cases j with
      | zero => simpa using hprev rfl
      | succ m => simpa [List.getD_cons_succ] using hrest m rfl

/-- Claim C2: an entry transition fires exactly when the row carries the
bullish-crossover value 1 (given the position is flat after the exit phase),
and — with the `position` column modelled from the spec, since its producer is
absent from `src/` — a row carries the value 1 only when it is not the first
row, its trend state is bullish, and the immediately preceding row's trend
state was not bullish. -/
theorem entry_only_on_bullish_cross :
    (∀ (cfg : Config) (s : SimState) (row : Row),
      (stepExit cfg s row).inPosition = false →
      ((stepRow cfg s row).inPosition = true ↔ row.position = 1)) ∧
    (∀ (sigs : List ℚ) (i : ℕ), (positionCol sigs).getD i 0 = 1 →
      0 < i ∧ sigs.getD i 0 = 1 ∧ sigs.getD (i - 1) 0 ≠ 1) := by
  constructor
  · intro cfg s row h
    unfold stepRow stepEntry
    by_cases hp : row.position = 1
    · rw [if_neg (by simp [h]), if_pos hp]
      simp [hp]
    · rw [if_neg (by simp [h]), if_neg hp]
      simp [h, hp]
  · intro sigs i h
    cases sigs with
    | nil => simp [positionCol] at h
    | cons x xs =>
      cases i with
      | zero =>
        simp only [positionCol, List.getD_cons_zero] at h
        norm_num at h
      | succ k =>
        simp only [positionCol, List.getD_cons_succ] at h
        obtain ⟨ha, hprev, hrest⟩ := positionColAux_getD_one xs x k h
        refine ⟨Nat.succ_pos k, by simpa [List.getD_cons_succ] using ha, ?_⟩
        simp only [Nat.add_sub_cancel]
        cases k with
        | zero => simpa using hprev rfl
        | succ m => simpa [List.getD_cons_succ] using hrest m rfl

/-- Witness for C2: a flat state enters on a row with crossover value 1, and
in the modelled column for the trend series `[0, 1]` the second row carries a
fresh bullish cross. -/
theorem entry_only_on_bullish_cross_witness :
    ((stepRow ⟨"Reverse Crossover", 1, 1, 60⟩ ⟨[], false, 0, 0⟩
        ⟨0, 5, 1⟩).inPosition = true ↔ (⟨0, 5, 1⟩ : Row).position = 1) ∧
    (0 < 1 ∧ [(0 : ℚ), 1].getD 1 0 = 1 ∧ [(0 : ℚ), 1].getD (1 - 1) 0 ≠ 1) :=
  ⟨entry_only_on_bullish_cross.1 ⟨"Reverse Crossover", 1, 1, 60⟩
      ⟨[], false, 0, 0⟩ ⟨0, 5, 1⟩ rfl,
    entry_only_on_bullish_cross.2 [0, 1] 1 (by decide)⟩

/-! ### Claim C10 -/

/-- Claim C10: because the entry check runs after the exit check within the
same row, when an exit fires at a row that also carries the bullish entry
value 1, a new position opens at that same row's close: the recorded trade's
exit date equals the new position's entry date and its exit price equals the
new entry price. -/
theorem same_row_exit_reentry (cfg : Config) (s : SimState) (row : Row)
    (hb : s.inPosition = true) (hexit : (stepExit cfg s row).inPosition = false)
    (hsig : row.position = 1) :
    ∃ t, (stepExit cfg s row).trades = s.trades ++ [t] ∧
      t.exitDate = row.date ∧ t.exitPrice = row.close ∧
      (stepRow cfg s row).inPosition = true ∧
      (stepRow cfg s row).entryDate = row.date ∧
      (stepRow cfg s row).entryPrice = row.close ∧
      (stepRow cfg s row).trades = s.trades ++ [t] := by
  rcases stepExit_shape cfg s row with he | ⟨_, ty, he⟩
  · rw [he, hb] at hexit
    cases hexit
  · have hrow : stepRow cfg s row =
        { stepExit cfg s row with
          inPosition := true
          entryPrice := row.close
          entryDate := row.date } := by
      unfold stepRow stepEntry
      rw [if_neg (by simp [hexit]), if_pos hsig]
    refine ⟨mkTrade s row ty, ?_, rfl, rfl, ?_, ?_, ?_, ?_⟩
    · rw [he, closeTrade_trades]
    · rw [hrow]
    · rw [hrow]
    · rw [hrow]
    · rw [hrow]
      show (stepExit cfg s row).trades = s.trades ++ [mkTrade s row ty]
      rw [he, closeTrade_trades]

/-- Witness for C10: a take-profit exit at a row that also carries the entry
value 1 re-enters at the same close 111. -/
theorem same_row_exit_reentry_witness :
    ∃ t, (stepExit ⟨"Take Profit / Stop Loss", 1/10, 1/20, 60⟩ ⟨[], true, 100, 0⟩
        ⟨1, 111, 1⟩).trades = [] ++ [t] ∧
      t.exitDate = 1 ∧ t.exitPrice = 111 ∧
      (stepRow ⟨"Take Profit / Stop Loss", 1/10, 1/20, 60⟩ ⟨[], true, 100, 0⟩
        ⟨1, 111, 1⟩).inPosition = true ∧
      (stepRow ⟨"Take Profit / Stop Loss", 1/10, 1/20, 60⟩ ⟨[], true, 100, 0⟩
        ⟨1, 111, 1⟩).entryDate = 1 ∧
      (stepRow ⟨"Take Profit / Stop Loss", 1/10, 1/20, 60⟩ ⟨[], true, 100, 0⟩
        ⟨1, 111, 1⟩).entryPrice = 111 ∧
      (stepRow ⟨"Take Profit / Stop Loss", 1/10, 1/20, 60⟩ ⟨[], true, 100, 0⟩
        ⟨1, 111, 1⟩).trades = [] ++ [t] :=
  same_row_exit_reentry ⟨"Take Profit / Stop Loss", 1/10, 1/20, 60⟩
    ⟨[], true, 100, 0⟩ ⟨1, 111, 1⟩ rfl
    (by norm_num [stepExit, closeTrade, mkTrade, string_tpsl_eq_tpsl]) rfl

/-! ### Claim C6 -/

/-- Claim C6: if the simulation ends while a position is held, exactly one
additional trade is appended, force-closed at the final row's closing price,
with exit reason end-of-data and exit date equal to the last row's date; the
open position is never dropped from the returned trade list. -/
theorem end_of_data_force_close (cfg : Config) (rows : List Row)
    (h : (runLoop cfg rows).inPosition = true) :
    ∃ last t, rows.getLast? = some last ∧
      finalTrades cfg rows = (runLoop cfg rows).trades ++ [t] ∧
      t.exitType = .endOfBacktest ∧ t.exitDate = last.date ∧
      t.exitPrice = last.close ∧
      (run_backtest cfg rows).trades = (finalTrades cfg rows).map pctTrade := by
  cases rows with
  | nil => cases h
  | cons r rs =>
    have hgl : (r :: rs).getLast? = some ((r :: rs).getLast (List.cons_ne_nil r rs)) :=
      List.getLast?_eq_getLast _ _
    refine ⟨(r :: rs).getLast (List.cons_ne_nil r rs),
      mkTrade (runLoop cfg (r :: rs)) ((r :: rs).getLast (List.cons_ne_nil r rs))
        .endOfBacktest,
      hgl, ?_, rfl, rfl, rfl, run_backtest_trades _ _⟩
    unfold finalTrades forceClose
    rw [if_pos h, hgl]
    rfl

/-- Witness for C6 on a one-row series whose position is still open at the
end. -/
theorem end_of_data_force_close_witness :
    ∃ last t, ([⟨0, 100, 1⟩] : List Row).getLast? = some last ∧
      finalTrades ⟨"Reverse Crossover", 1, 1, 60⟩ [⟨0, 100, 1⟩] =
        (runLoop ⟨"Reverse Crossover", 1, 1, 60⟩ [⟨0, 100, 1⟩]).trades ++ [t] ∧
      t.exitType = .endOfBacktest ∧ t.exitDate = last.date ∧
      t.exitPrice = last.close ∧
      (run_backtest ⟨"Reverse Crossover", 1, 1, 60⟩ [⟨0, 100, 1⟩]).trades =
        (finalTrades ⟨"Reverse Crossover", 1, 1, 60⟩ [⟨0, 100, 1⟩]).map pctTrade :=
  end_of_data_force_close ⟨"Reverse Crossover", 1, 1, 60⟩ [⟨0, 100, 1⟩] rfl

/-! ### Claim C8 -/

theorem Inv_mono {s : SimState} {d d2 : ℤ} (hdd : d ≤ d2) (h : Inv s d) :
    Inv s d2 := by
  obtain ⟨h1, h2, h3⟩ := h
  exact ⟨h1, fun t ht => ⟨(h2 t ht).1, le_trans (h2 t ht).2 hdd⟩,
    fun hb => ⟨le_trans (h3 hb).1 hdd, (h3 hb).2⟩⟩

theorem stepExit_inv {cfg : Config} {s : SimState} {row : Row} {d : ℤ}
    (hd : d < row.date) (h : Inv s d) : Inv (stepExit cfg s row) row.date := by
  rcases stepExit_shape cfg s row with he | ⟨hb, ty, he⟩
  · rw [he]
    exact Inv_mono (le_of_lt hd) h
  · rw [he]
    obtain ⟨hchain, hall, hopen⟩ := h
    obtain ⟨hentry_le, hexits_le⟩ := hopen hb
    refine ⟨?_, ?_, ?_⟩
    · rw [closeTrade_trades]
      refine hchain.append (List.chain'_singleton _) ?_
      intro x hx y hy
      have hy2 : mkTrade s row ty = y := by simpa using hy
      rw [← hy2]
      exact hexits_le x (List.mem_of_mem_getLast? hx)
    · intro t ht
      rw [closeTrade_trades] at ht
      rcases List.mem_append.1 ht with hmem | hmem
      · exact ⟨(hall t hmem).1, le_trans (hall t hmem).2 (le_of_lt hd)⟩
      · rw [List.mem_singleton.1 hmem]
        exact ⟨le_trans hentry_le (le_of_lt hd), le_refl _⟩
    · intro habs
      rw [closeTrade_inPosition] at habs
      cases habs

theorem stepEntry_inv {s : SimState} {row : Row} (h : Inv s row.date) :
    Inv (stepEntry s row) row.date := by
  rcases stepEntry_shape s row with he | ⟨_, _, he⟩
  · rw [he]
    exact h
  · rw [he]
    obtain ⟨hchain, hall, _⟩ := h
    exact ⟨hchain, hall, fun _ => ⟨le_refl row.date, fun t ht => (hall t ht).2⟩⟩

theorem stepRow_inv (cfg : Config) {s : SimState} {row : Row} {d : ℤ}
    (hd : d < row.date) (h : Inv s d) : Inv (stepRow cfg s row) row.date :=
  stepEntry_inv (stepExit_inv hd h)

theorem foldl_inv (cfg : Config) :
    ∀ (rows : List Row) (s : SimState) (d : ℤ), Inv s d →
      List.Chain (fun a b : ℤ => a < b) d (rows.map Row.date) →
      Inv (rows.foldl (stepRow cfg) s) ((rows.map Row.date).getLastD d) := by
  intro rows
  induction rows with
  | nil =>
    intro s d h _
    exact h
  | cons r rs ih =>
    intro s d h hchain
    rw [List.map_cons] at hchain
    obtain ⟨hd, htail⟩ := List.chain_cons.1 hchain
    rw [List.foldl_cons, List.map_cons, List.getLastD_cons]
    exact ih (stepRow cfg s r) r.date (stepRow_inv cfg hd h) htail

theorem map_date_getLastD {rows : List Row} {last : Row} (d : ℤ)
    (hgl : rows.getLast? = some last) :
    (rows.map Row.date).getLastD d = last.date := by
  rw [List.getLastD_eq_getLast?, List.getLast?_map, hgl]
  rfl

theorem finalTrades_chain (cfg : Config) (rows : List Row)
    (hmono : List.Chain' (fun a b : Row => a.date < b.date) rows) :
    List.Chain' (fun a b : Trade => a.exitDate ≤ b.entryDate) (finalTrades cfg rows) ∧
    ∀ t ∈ finalTrades cfg rows, t.entryDate ≤ t.exitDate := by
  cases rows with
  | nil =>
    refine ⟨List.chain'_nil, ?_⟩
    intro t ht
    cases ht
  | cons r rs =>
    have hinv0 : Inv initState (r.date - 1) := by
      refine ⟨List.chain'_nil, ?_, ?_⟩
      · intro t ht
        cases ht
      · intro hb
        cases hb
    have hchain0 : List.Chain (fun a b : ℤ => a < b) (r.date - 1)
        ((r :: rs).map Row.date) := by
      rw [List.map_cons]
      refine List.chain_cons.2 ⟨by omega, ?_⟩
      have h2 : List.Chain (fun a b : Row => a.date < b.date) r rs := hmono
      exact (List.chain_map Row.date).2 h2
    have hgl : (r :: rs).getLast? =
        some ((r :: rs).getLast (List.cons_ne_nil r rs)) :=
      List.getLast?_eq_getLast _ _
    have hfin : Inv (runLoop cfg (r :: rs))
        (((r :: rs).getLast (List.cons_ne_nil r rs)).date) := by
      have h0 := foldl_inv cfg (r :: rs) initState (r.date - 1) hinv0 hchain0
      rwa [map_date_getLastD (r.date - 1) hgl] at h0
    obtain ⟨hchain2, hall, hopen⟩ := hfin
    by_cases hb : (runLoop cfg (r :: rs)).inPosition = true
    · obtain ⟨hentry_le, hexits_le⟩ := hopen hb
      have hft : finalTrades cfg (r :: rs) =
          (runLoop cfg (r :: rs)).trades ++
            [mkTrade (runLoop cfg (r :: rs))
              ((r :: rs).getLast (List.cons_ne_nil r rs)) .endOfBacktest] := by
        unfold finalTrades forceClose
        rw [if_pos hb, hgl]
        rfl
      rw [hft]
      constructor
      · refine hchain2.append (List.chain'_singleton _) ?_
        intro x hx y hy
        have hy2 : mkTrade (runLoop cfg (r :: rs))
            ((r :: rs).getLast (List.cons_ne_nil r rs)) .endOfBacktest = y := by
          simpa using hy
        rw [← hy2]
        exact hexits_le x (List.mem_of_mem_getLast? hx)
      · intro t ht
        rcases List.mem_append.1 ht with hmem | hmem
        · exact (hall t hmem).1
        · rw [List.mem_singleton.1 hmem]
          exact hentry_le
    · have hft : finalTrades cfg (r :: rs) = (runLoop cfg (r :: rs)).trades := by
        unfold finalTrades forceClose
        rw [if_neg hb]
      rw [hft]
      exact ⟨hchain2, fun t ht => (hall t ht).1⟩

/-- Claim C8: over any series with strictly increasing dates, the recorded
trades never overlap in time — each trade closes no earlier than it opened and
no later than the next trade opens — and an entry transition occurs only from
the flat state: if the position is still held after the exit phase of a row,
the entry phase of that row changes nothing. -/
theorem single_position_invariant (cfg : Config) (rows : List Row)
    (hmono : List.Chain' (fun a b : Row => a.date < b.date) rows) :
    (List.Chain' (fun a b : Trade => a.exitDate ≤ b.entryDate)
        (run_backtest cfg rows).trades ∧
      ∀ t ∈ (run_backtest cfg rows).trades, t.entryDate ≤ t.exitDate) ∧
    ∀ (s : SimState) (row : Row), (stepExit cfg s row).inPosition = true →
      stepRow cfg s row = stepExit cfg s row := by
  constructor
  · obtain ⟨hchain, hall⟩ := finalTrades_chain cfg rows hmono
    rw [run_backtest_trades]
    constructor
    · rw [List.chain'_map]
      exact hchain
    · intro t ht
      obtain ⟨t0, ht0, rfl⟩ := List.mem_map.1 ht
      exact hall t0 ht0
  · intro s row hpos2
    unfold stepRow stepEntry
    rw [if_pos hpos2]

/-- Witness for C8 at a concrete two-row strictly dated series. -/
theorem single_position_invariant_witness :
    (List.Chain' (fun a b : Trade => a.exitDate ≤ b.entryDate)
        (run_backtest ⟨"Reverse Crossover", 1, 1, 60⟩
          [⟨0, 100, 1⟩, ⟨1, 110, -1⟩]).trades ∧
      ∀ t ∈ (run_backtest ⟨"Reverse Crossover", 1, 1, 60⟩
          [⟨0, 100, 1⟩, ⟨1, 110, -1⟩]).trades, t.entryDate ≤ t.exitDate) ∧
    ∀ (s : SimState) (row : Row),
      (stepExit ⟨"Reverse Crossover", 1, 1, 60⟩ s row).inPosition = true →
      stepRow ⟨"Reverse Crossover", 1, 1, 60⟩ s row =
        stepExit ⟨"Reverse Crossover", 1, 1, 60⟩ s row :=
  single_position_invariant ⟨"Reverse Crossover", 1, 1, 60⟩
    [⟨0, 100, 1⟩, ⟨1, 110, -1⟩] (List.chain'_pair.2 (by decide))

end StockStrategy
